import Mathlib

/-!
Shallow embedding of the mudv2 terminal-MUD server (Rust) for checking its
natural-language specification.

Conventions of the embedding:
* Rust `usize` values are modelled as `Nat`; subtraction that could underflow
  in Rust is modelled through `checkedSub`, whose `none` result stands for the
  arithmetic defect (panic).
* A Rust method on `&mut self` returning `Result<()>` is modelled as a function
  `… → Outcome × State`: the returned state is the (possibly partially
  mutated) receiver, and `Outcome` records normal return (`ok`), a recoverable
  `Err` (`err`), or a panic (`panicked`).
* `crossterm::style::Color` is opaque to the spec, modelled as `Nat`.
* The tokio mpsc sender `Tx` is modelled by an opaque channel identifier
  (`Nat`); a broadcast is modelled by the list of channel identifiers the
  event was sent to.
-/

namespace Mudv2

/-- `crossterm::style::Color`, opaque to this development. -/
abbrev Color := Nat

/-- `Style` from src/canvas.rs. -/
structure Style where
  fg : Option Color
  bg : Option Color
  bold : Bool
  italic : Bool
deriving DecidableEq, Repr

/-- `impl Default for Style`: no color override, not bold, not italic. -/
def Style.default : Style := ⟨none, none, false, false⟩

/-- `Cell` from src/canvas.rs: one displayable character plus its style. -/
structure Cell where
  ch : Char
  style : Style
deriving DecidableEq, Repr

/-- `impl Default for Cell`: a space with the default style. -/
def Cell.default : Cell := ⟨' ', Style.default⟩

/-- `BufferChange` from src/canvas.rs (the cell is stored by value here). -/
structure BufferChange where
  cell : Cell
  x : Nat
  y : Nat
deriving DecidableEq, Repr

/-- `RenderBuffer` from src/canvas.rs: row-major grid of cells. -/
structure RenderBuffer where
  data : List Cell
  width : Nat
  height : Nat
deriving DecidableEq, Repr

/-- The distinct recoverable error values produced in src/canvas.rs. -/
inductive CanvasErr where
  | coordsOutOfRange : CanvasErr
  | textTooLong : CanvasErr
  | areaExceedsWidth : CanvasErr
  | areaExceedsHeight : CanvasErr
deriving DecidableEq, Repr

/-- Result of running one Rust operation on a `&mut` receiver. -/
inductive Outcome where
  | ok : Outcome
  | err : CanvasErr → Outcome
  | panicked : Outcome
deriving DecidableEq, Repr

/-- Rust `usize` subtraction: `none` models the underflow defect. -/
def checkedSub (a b : Nat) : Option Nat :=
  if b ≤ a then some (a - b) else none

namespace RenderBuffer

/-- `RenderBuffer::new(width, height)`. -/
def new (width height : Nat) : RenderBuffer :=
  ⟨List.replicate (width * height) Cell.default, width, height⟩

/-- The data vector always holds exactly `width * height` cells; every buffer
the Rust code constructs satisfies this. -/
def wf (b : RenderBuffer) : Prop := b.data.length = b.width * b.height

instance (b : RenderBuffer) : Decidable b.wf := by
  unfold wf; infer_instance

/-- `RenderBuffer::coord_to_idx`: `none` models the panic on an out-of-bounds
coordinate. -/
def coord_to_idx (b : RenderBuffer) (x y : Nat) : Option Nat :=
  if x ≥ b.width ∨ y ≥ b.height then none
  else some (y * b.width + x)

/-- `RenderBuffer::cell_at`: `none` models a panic (from `coord_to_idx` or the
`unwrap` on the vector access). -/
def cell_at (b : RenderBuffer) (x y : Nat) : Option Cell :=
  match b.coord_to_idx x y with
  | none => none
  | some idx => b.data.get? idx

/-- `RenderBuffer::set_char`: panics (via `coord_to_idx`) when the coordinate
is out of bounds, returns the `Err` branch when the index misses the data
vector (impossible on well-formed buffers), otherwise replaces one cell. -/
def set_char (b : RenderBuffer) (ch : Char) (style : Option Style) (x y : Nat) :
    Outcome × RenderBuffer :=
  match b.coord_to_idx x y with
  | none => (Outcome.panicked, b)
  | some idx =>
    if idx < b.data.length then
      (Outcome.ok, { b with data := b.data.set idx ⟨ch, (style.getD Style.default)⟩ })
    else
      (Outcome.err CanvasErr.coordsOutOfRange, b)

/-- The character-writing loop of `RenderBuffer::set_text`: successive
`set_char` calls at increasing x, stopping at the first failure. -/
def setTextLoop (style : Option Style) (y : Nat) :
    List Char → Nat → RenderBuffer → Outcome × RenderBuffer
  | [], _, b => (Outcome.ok, b)
  | c :: cs, i, b =>
    match set_char b c style i y with
    | (Outcome.ok, b1) => setTextLoop style y cs (i + 1) b1
    | r => r

/-- `RenderBuffer::set_text`: rejects the write up front when
`x + text.chars().count() > width`, otherwise writes the run. -/
def set_text (b : RenderBuffer) (text : List Char) (style : Option Style) (x y : Nat) :
    Outcome × RenderBuffer :=
  if x + text.length > b.width then (Outcome.err CanvasErr.textTooLong, b)
  else setTextLoop style y text x b

/-- `RenderBuffer::clear`. -/
def clear (b : RenderBuffer) : RenderBuffer :=
  { b with data := List.replicate (b.width * b.height) Cell.default }

/-- The column scan of `RenderBuffer::diff` for one row `y`: `none` models a
panic inside `cell_at`. -/
def diffCols (b other : RenderBuffer) (y : Nat) :
    List Nat → Option (List BufferChange)
  | [] => some []
  | x :: xs =>
    match b.cell_at x y, other.cell_at x y with
    | some c, some oc =>
      match diffCols b other y xs with
      | some rest => some (if c ≠ oc then ⟨c, x, y⟩ :: rest else rest)
      | none => none
    | _, _ => none

/-- The row scan of `RenderBuffer::diff`. -/
def diffRows (b other : RenderBuffer) : List Nat → Option (List BufferChange)
  | [] => some []
  | y :: ys =>
    match diffCols b other y (List.range b.width) with
    | some row =>
      match diffRows b other ys with
      | some rest => some (row ++ rest)
      | none => none
    | none => none

/-- `RenderBuffer::diff`: scans y ascending then x ascending, collecting the
cells of `b` that differ from `other`. -/
def diff (b other : RenderBuffer) : Option (List BufferChange) :=
  diffRows b other (List.range b.height)

/-- The first loop of `RenderBuffer::draw_border`: for each `i` in the top
edge range, write `─` at `(i, y)` and at `(i, y + height - 1)`; the second
subtraction is evaluated inside the loop body, so its underflow (`ybot =
none`) panics only after the first write of an iteration. -/
def borderRowLoop (style : Option Style) (y : Nat) (ybot : Option Nat) :
    List Nat → RenderBuffer → Outcome × RenderBuffer
  | [], b => (Outcome.ok, b)
  | i :: is, b =>
    match set_char b '─' style i y with
    | (Outcome.ok, b1) =>
      match ybot with
      | none => (Outcome.panicked, b1)
      | some yb =>
        match set_char b1 '─' style i yb with
        | (Outcome.ok, b2) => borderRowLoop style y ybot is b2
        | r => r
    | r => r

/-- The second loop of `RenderBuffer::draw_border`: for each `j` in the left
edge range, write `│` at `(x, j)` and at `(x + width - 1, j)`; `xr` is
`x + width - 1`, already evaluated by the first loop's range bound. -/
def borderColLoop (style : Option Style) (x xr : Nat) :
    List Nat → RenderBuffer → Outcome × RenderBuffer
  | [], b => (Outcome.ok, b)
  | j :: js, b =>
    match set_char b '│' style x j with
    | (Outcome.ok, b1) =>
      match set_char b1 '│' style xr j with
      | (Outcome.ok, b2) => borderColLoop style x xr js b2
      | r => r
    | r => r

/-- `RenderBuffer::draw_border`: bound checks first, then the two edge loops,
then the four corners, in source order.  `checkedSub` models the `usize`
subtractions `x + width - 1` and `y + height - 1`, whose underflow panics at
the point Rust evaluates them (the first when building the first loop's
range, the second inside the first loop's body or, if that loop is empty,
when building the second loop's range). -/
def draw_border (b : RenderBuffer) (x y width height : Nat) (style : Option Style) :
    Outcome × RenderBuffer :=
  if x + width > b.width then (Outcome.err CanvasErr.areaExceedsWidth, b)
  else if y + height > b.height then (Outcome.err CanvasErr.areaExceedsHeight, b)
  else
    match checkedSub (x + width) 1 with
    | none => (Outcome.panicked, b)
    | some xr =>
      let ybotOpt := checkedSub (y + height) 1
      match borderRowLoop style y ybotOpt (List.range' (x + 1) (xr - (x + 1))) b with
      | (Outcome.ok, b1) =>
        match ybotOpt with
        | none => (Outcome.panicked, b1)
        | some yb =>
          match borderColLoop style x xr (List.range' (y + 1) (yb - (y + 1))) b1 with
          | (Outcome.ok, b2) =>
            match set_char b2 '┌' style x y with
            | (Outcome.ok, b3) =>
              match set_char b3 '┐' style xr y with
              | (Outcome.ok, b4) =>
                match set_char b4 '┘' style xr yb with
                | (Outcome.ok, b5) => set_char b5 '└' style x yb
                | r => r
              | r => r
            | r => r
          | r => r
      | r => r

end RenderBuffer

/-- `Canvas` from src/canvas.rs. -/
structure Canvas where
  buffer : RenderBuffer
  width : Nat
  height : Nat
deriving DecidableEq, Repr

/-- `Canvas::new(width, height)`. -/
def Canvas.new (width height : Nat) : Canvas :=
  ⟨RenderBuffer.new width height, width, height⟩

/-- `Canvas::redraw`: snapshot the buffer, run the drawing closure on it (a
failure leaves the partial mutation in place and propagates), then diff the
new buffer against the snapshot.  The emitted byte stream is represented by
the ordered change list it serializes. -/
def Canvas.redraw (c : Canvas) (f : RenderBuffer → Outcome × RenderBuffer) :
    Outcome × Canvas × Option (List BufferChange) :=
  match f c.buffer with
  | (Outcome.ok, b1) =>
    match b1.diff c.buffer with
    | some changes => (Outcome.ok, ⟨b1, c.width, c.height⟩, some changes)
    | none => (Outcome.panicked, ⟨b1, c.width, c.height⟩, none)
  | (o, b1) => (o, ⟨b1, c.width, c.height⟩, none)

/-- `RoomEvent` from src/main.rs. -/
inductive RoomEvent where
  | peerMoved : List (Nat × Nat) → RoomEvent
deriving DecidableEq, Repr

/-- The loop in `handle_event`'s drawing closure: mark `@` at every reported
peer position, stopping at the first failure. -/
def drawGlyphs : List (Nat × Nat) → RenderBuffer → Outcome × RenderBuffer
  | [], b => (Outcome.ok, b)
  | p :: ps, b =>
    match RenderBuffer.set_char b '@' none p.1 p.2 with
    | (Outcome.ok, b1) => drawGlyphs ps b1
    | r => r

/-- `handle_event` from src/main.rs: clear the canvas, mark every reported
position, redraw; the `.unwrap()` on `redraw`'s result turns any error into a
panic. -/
def handle_event (ev : RoomEvent) (c : Canvas) :
    Outcome × Canvas × Option (List BufferChange) :=
  match ev with
  | RoomEvent.peerMoved positions =>
    match c.redraw (fun ctx => drawGlyphs positions ctx.clear) with
    | (Outcome.ok, c1, changes) => (Outcome.ok, c1, changes)
    | (_, c1, changes) => (Outcome.panicked, c1, changes)

/-- `SocketAddr`, opaque to this development. -/
abbrev Addr := Nat

/-- The unbounded mpsc sender `Tx`, modelled by an opaque channel id. -/
abbrev Tx := Nat

/-- `UserInput` from src/shared.rs. -/
inductive UserInput where
  | moveUp | moveDown | moveLeft | moveRight | quit
deriving DecidableEq, Repr

/-- `PeerState` from src/shared.rs. -/
inductive PeerState where
  | login | playing
deriving DecidableEq, Repr

/-- `PeerData` from src/shared.rs. -/
structure PeerData where
  tx : Tx
  state : PeerState
  position : Nat × Nat
deriving DecidableEq, Repr

/-- `Shared` from src/shared.rs.  The `HashMap<SocketAddr, PeerData>` is
modelled as an association list with distinct keys; iteration order is the
list order (the map's iteration order is unspecified). -/
structure Shared where
  peers : List (Addr × PeerData)
deriving DecidableEq, Repr

/-- `HashMap::insert`: replace the value at an existing key, else add the
entry. -/
def insertAssoc : List (Addr × PeerData) → Addr → PeerData → List (Addr × PeerData)
  | [], a, d => [(a, d)]
  | (a1, d1) :: rest, a, d =>
    if a1 = a then (a, d) :: rest else (a1, d1) :: insertAssoc rest a d

/-- `HashMap::get` / `HashMap::get_mut` lookup. -/
def lookupAssoc : List (Addr × PeerData) → Addr → Option PeerData
  | [], _ => none
  | (a1, d1) :: rest, a => if a1 = a then some d1 else lookupAssoc rest a

/-- In-place mutation through `get_mut`: apply `f` to the entry at the key. -/
def updateAssoc (f : PeerData → PeerData) : List (Addr × PeerData) → Addr → List (Addr × PeerData)
  | [], _ => []
  | (a1, d1) :: rest, a =>
    if a1 = a then (a1, f d1) :: rest else (a1, d1) :: updateAssoc f rest a

/-- `Shared::new`. -/
def Shared.new : Shared := ⟨[]⟩

/-- `Shared::add_peer`: unconditionally insert a fresh `PeerData` with stage
`Playing`, position `(0, 0)` and the given channel. -/
def Shared.add_peer (s : Shared) (addr : Addr) (tx : Tx) : Shared :=
  ⟨insertAssoc s.peers addr ⟨tx, PeerState.playing, (0, 0)⟩⟩

/-- The position update `match` inside `Shared::move_peer`; the `usize`
subtractions are guarded by the zero tests in the source, so `Nat`
subtraction is exact here. -/
def movePos (input : UserInput) (pos : Nat × Nat) : Nat × Nat :=
  match input with
  | UserInput.moveUp => if pos.2 = 0 then (pos.1, 0) else (pos.1, pos.2 - 1)
  | UserInput.moveDown => (pos.1, pos.2 + 1)
  | UserInput.moveLeft => if pos.1 = 0 then (0, pos.2) else (pos.1 - 1, pos.2)
  | UserInput.moveRight => (pos.1 + 1, pos.2)
  | UserInput.quit => pos

/-- `Shared::move_peer`: look the peer up (`unwrap` panics when absent,
modelled by `none`), update its position, then broadcast a `PeerMoved` event
holding every registered peer's position to every registered peer's channel.
The result carries the new state, the broadcast event and the list of
channels the event was sent to. -/
def Shared.move_peer (s : Shared) (addr : Addr) (input : UserInput) :
    Option (Shared × RoomEvent × List Tx) :=
  match lookupAssoc s.peers addr with
  | none => none
  | some _ =>
    let peers1 := updateAssoc (fun d => { d with position := movePos input d.position }) s.peers addr
    some (⟨peers1⟩, RoomEvent.peerMoved (peers1.map (fun p => p.2.position)),
      peers1.map (fun p => p.2.tx))

/-- A session trace: the process loop in src/main.rs applying a sequence of
movement inputs on behalf of one peer through `Shared::move_peer` (the
broadcasts are discarded here); `none` models a panic inside `move_peer`. -/
def applyInputs (s : Shared) (addr : Addr) : List UserInput → Option Shared
  | [] => some s
  | i :: is =>
    match s.move_peer addr i with
    | some (s1, _, _) => applyInputs s1 addr is
    | none => none

/-- `get_telnet_size` from src/main.rs: take the final 9 bytes of the frame
(the slice `&bytes[len - 9..]` panics when the frame is shorter than 9
bytes, modelled by `none`) and read width and height as big-endian 16-bit
values at subnegotiation offsets 3–4 and 5–6.  Bytes are `Nat`s below 256;
the `u16` arithmetic cannot overflow, so `Nat` shifts are exact. -/
def get_telnet_size (bytes : List Nat) : Option (Nat × Nat) :=
  if bytes.length < 9 then none
  else
    let naws := bytes.drop (bytes.length - 9)
    some ((naws.getD 3 0) <<< 8 ||| naws.getD 4 0,
      (naws.getD 5 0) <<< 8 ||| naws.getD 6 0)

/-! ## Basic lemmas about the render buffer -/

namespace RenderBuffer

theorem wf_new (w h : Nat) : (new w h).wf := by
  simp [new, wf]

theorem idx_lt {w h x y : Nat} (hx : x < w) (hy : y < h) : y * w + x < w * h := by
  have h1 : y * w + x < (y + 1) * w := by rw [Nat.succ_mul]; omega
  have h2 : (y + 1) * w ≤ h * w := Nat.mul_le_mul_right w hy
  rw [Nat.mul_comm w h]
  exact lt_of_lt_of_le h1 h2

theorem idx_inj {w x x' y y' : Nat} (hx : x < w) (hx' : x' < w)
    (h : y * w + x = y' * w + x') : x = x' ∧ y = y' := by
  have hw : 0 < w := Nat.lt_of_le_of_lt (Nat.zero_le x) hx
  have h1 : x + y * w = x' + y' * w := by omega
  have hxx : x = x' := by
    have h2 := congrArg (· % w) h1
    simpa [Nat.add_mul_mod_self_right, Nat.mod_eq_of_lt hx, Nat.mod_eq_of_lt hx'] using h2
  have hyy : y = y' := by
    have h3 : y * w = y' * w := by omega
    exact Nat.eq_of_mul_eq_mul_right hw h3
  exact ⟨hxx, hyy⟩

theorem coord_to_idx_eq (b : RenderBuffer) {x y : Nat} (hx : x < b.width) (hy : y < b.height) :
    b.coord_to_idx x y = some (y * b.width + x) := by
  simp [coord_to_idx, Nat.not_le.mpr hx, Nat.not_le.mpr hy]

theorem coord_to_idx_oob (b : RenderBuffer) {x y : Nat} (h : b.width ≤ x ∨ b.height ≤ y) :
    b.coord_to_idx x y = none := by
  simp [coord_to_idx, h]

theorem cell_at_eq (b : RenderBuffer) {x y : Nat} (hx : x < b.width) (hy : y < b.height) :
    b.cell_at x y = b.data[y * b.width + x]? := by
  simp [cell_at, coord_to_idx_eq b hx hy, List.get?_eq_getElem?]

theorem cell_at_oob (b : RenderBuffer) {x y : Nat} (h : b.width ≤ x ∨ b.height ≤ y) :
    b.cell_at x y = none := by
  simp [cell_at, coord_to_idx_oob b h]

theorem cell_at_some_bounds {b : RenderBuffer} {x y : Nat} {c : Cell}
    (h : b.cell_at x y = some c) : x < b.width ∧ y < b.height := by
  by_contra hcon
  rw [cell_at_oob b (by omega)] at h
  exact Option.noConfusion h

theorem cell_at_of_wf (b : RenderBuffer) (hwf : b.wf) {x y : Nat}
    (hx : x < b.width) (hy : y < b.height) :
    ∃ c, b.cell_at x y = some c := by
  rw [cell_at_eq b hx hy]
  have hidx : y * b.width + x < b.data.length := by rw [hwf]; exact idx_lt hx hy
  exact ⟨_, List.getElem?_eq_getElem hidx⟩

theorem set_char_ok (b : RenderBuffer) (ch : Char) (st : Option Style) {x y : Nat}
    (hwf : b.wf) (hx : x < b.width) (hy : y < b.height) :
    b.set_char ch st x y =
      (Outcome.ok,
        ⟨b.data.set (y * b.width + x) ⟨ch, st.getD Style.default⟩, b.width, b.height⟩) := by
  have hidx : y * b.width + x < b.data.length := by rw [hwf]; exact idx_lt hx hy
  simp [set_char, coord_to_idx_eq b hx hy, hidx]

theorem set_char_oob (b : RenderBuffer) (ch : Char) (st : Option Style) {x y : Nat}
    (h : b.width ≤ x ∨ b.height ≤ y) :
    b.set_char ch st x y = (Outcome.panicked, b) := by
  simp [set_char, coord_to_idx_oob b h]

theorem set_char_dims (b : RenderBuffer) (ch : Char) (st : Option Style) (x y : Nat) :
    ((b.set_char ch st x y).2).width = b.width ∧
    ((b.set_char ch st x y).2).height = b.height ∧
    ((b.set_char ch st x y).2).data.length = b.data.length := by
  unfold set_char
  cases hc : b.coord_to_idx x y with
  | none => simp
  | some idx =>
    by_cases hlen : idx < b.data.length <;> simp [hlen, List.length_set]

theorem set_char_no_err (b : RenderBuffer) (ch : Char) (st : Option Style) (x y : Nat)
    (hwf : b.wf) (e : CanvasErr) : (b.set_char ch st x y).1 ≠ Outcome.err e := by
  unfold set_char
  cases hc : b.coord_to_idx x y with
  | none => simp
  | some idx =>
    have hb : ¬ (b.width ≤ x ∨ b.height ≤ y) := by
      intro h; rw [coord_to_idx_oob b h] at hc; exact Option.noConfusion hc
    have hx : x < b.width := by omega
    have hy : y < b.height := by omega
    have hidx : idx = y * b.width + x := by
      rw [coord_to_idx_eq b hx hy] at hc; exact (Option.some_inj.mp hc).symm
    have hlen : idx < b.data.length := by
      rw [hidx, hwf]; exact idx_lt hx hy
    simp [hlen]

theorem set_char_wf (b : RenderBuffer) (ch : Char) (st : Option Style) (x y : Nat)
    (hwf : b.wf) : ((b.set_char ch st x y).2).wf := by
  obtain ⟨h1, h2, h3⟩ := set_char_dims b ch st x y
  unfold wf
  rw [h1, h2, h3, hwf]

theorem cell_at_set_char (b : RenderBuffer) (ch : Char) (st : Option Style) {x y : Nat}
    (hwf : b.wf) (hx : x < b.width) (hy : y < b.height) (u v : Nat) :
    ((b.set_char ch st x y).2).cell_at u v =
      if u = x ∧ v = y then some ⟨ch, st.getD Style.default⟩ else b.cell_at u v := by
  rw [set_char_ok b ch st hwf hx hy]
  by_cases hu : u < b.width
  · by_cases hv : v < b.height
    · have hb1 : (⟨b.data.set (y * b.width + x) ⟨ch, st.getD Style.default⟩, b.width,
          b.height⟩ : RenderBuffer).cell_at u v =
          (b.data.set (y * b.width + x) ⟨ch, st.getD Style.default⟩)[v * b.width + u]? := by
        exact cell_at_eq _ hu hv
      rw [hb1, cell_at_eq b hu hv, List.getElem?_set]
      by_cases heq : u = x ∧ v = y
      · obtain ⟨hux, hvy⟩ := heq
        subst hux; subst hvy
        have hlen : v * b.width + u < b.data.length := by rw [hwf]; exact idx_lt hu hv
        simp [hlen]
      · have hne : y * b.width + x ≠ v * b.width + u := by
          intro hcon
          obtain ⟨h1, h2⟩ := idx_inj hx hu hcon
          exact heq ⟨h1.symm, h2.symm⟩
        simp [hne, heq]
    · have hv' : b.height ≤ v := by omega
      have hcond : ¬ (u = x ∧ v = y) := by rintro ⟨_, rfl⟩; omega
      have hL : ((Outcome.ok, (⟨b.data.set (y * b.width + x) ⟨ch, st.getD Style.default⟩,
          b.width, b.height⟩ : RenderBuffer)).2).cell_at u v = none :=
        cell_at_oob _ (Or.inr hv')
      rw [hL, cell_at_oob b (Or.inr hv'), if_neg hcond]
  · have hu' : b.width ≤ u := by omega
    have hcond : ¬ (u = x ∧ v = y) := by rintro ⟨rfl, _⟩; omega
    have hL : ((Outcome.ok, (⟨b.data.set (y * b.width + x) ⟨ch, st.getD Style.default⟩,
        b.width, b.height⟩ : RenderBuffer)).2).cell_at u v = none :=
      cell_at_oob _ (Or.inl hu')
    rw [hL, cell_at_oob b (Or.inl hu'), if_neg hcond]

theorem setTextLoop_ok (st : Option Style) (y : Nat) (text : List Char) :
    ∀ (x : Nat) (b : RenderBuffer), b.wf → y < b.height → x + text.length ≤ b.width →
    ∃ b1, setTextLoop st y text x b = (Outcome.ok, b1) ∧
      b1.width = b.width ∧ b1.height = b.height ∧ b1.wf ∧
      (∀ i, i < text.length →
        b1.cell_at (x + i) y = some ⟨text.getD i ' ', st.getD Style.default⟩) ∧
      (∀ u v, (u < x ∨ x + text.length ≤ u ∨ v ≠ y) → b1.cell_at u v = b.cell_at u v) := by
  induction text with
  | nil =>
    intro x b hwf hy _
    exact ⟨b, rfl, rfl, rfl, hwf, fun i hi => absurd hi (Nat.not_lt_zero i), fun u v _ => rfl⟩
  | cons c cs ih =>
    intro x b hwf hy hfit
    have hx : x < b.width := by simp [List.length_cons] at hfit; omega
    have hsc := set_char_ok b c st hwf hx hy
    set bset : RenderBuffer :=
      ⟨b.data.set (y * b.width + x) ⟨c, st.getD Style.default⟩, b.width, b.height⟩ with hbset
    have hscw : bset.wf := by
      have := set_char_wf b c st x y hwf
      rwa [hsc] at this
    have hcells0 : ∀ u v, bset.cell_at u v =
        if u = x ∧ v = y then some ⟨c, st.getD Style.default⟩ else b.cell_at u v := by
      intro u v
      have := cell_at_set_char b c st hwf hx hy u v
      rwa [hsc] at this
    obtain ⟨b1, hrun, hw1, hh1, hwf1, hcells1, hsame1⟩ :=
      ih (x + 1) bset hscw hy (by simp [List.length_cons] at hfit ⊢; omega)
    refine ⟨b1, ?_, hw1, hh1, hwf1, ?_, ?_⟩
    · simp only [setTextLoop, hsc]
      exact hrun
    · intro i hi
      match i with
      | 0 =>
        have h0 : b1.cell_at x y = bset.cell_at x y := hsame1 x y (Or.inl (Nat.lt_succ_self x))
        rw [Nat.add_zero, h0, hcells0]
        simp
      | Nat.succ j =>
        have hj : j < cs.length := by simp [List.length_cons] at hi; omega
        have := hcells1 j hj
        have harith : x + (j + 1) = x + 1 + j := by omega
        rw [harith]
        simpa using this
    · intro u v hcond
      have hc1 : u < x + 1 ∨ x + 1 + cs.length ≤ u ∨ v ≠ y := by
        rcases hcond with h | h | h
        · exact Or.inl (by omega)
        · exact Or.inr (Or.inl (by simp [List.length_cons] at h; omega))
        · exact Or.inr (Or.inr h)
      rw [hsame1 u v hc1, hcells0]
      have hne : ¬ (u = x ∧ v = y) := by
        rintro ⟨rfl, rfl⟩
        rcases hcond with h | h | h
        · omega
        · simp [List.length_cons] at h
        · exact h rfl
      rw [if_neg hne]

/-- C5: for every well-formed buffer and every row `y < height`, `set_text`
returns the recoverable TextTooLong error exactly when `x + length(text)`
exceeds the width, leaving the buffer unmodified on that error; on success it
writes the characters of `text` left to right into cells `(x, y)` through
`(x + length(text) - 1, y)` and leaves every other cell unchanged. -/
theorem set_text_contract (b : RenderBuffer) (text : List Char) (st : Option Style) (x y : Nat)
    (hwf : b.wf) (hy : y < b.height) :
    ((b.set_text text st x y).1 = Outcome.err CanvasErr.textTooLong ↔
        b.width < x + text.length) ∧
    (b.width < x + text.length → (b.set_text text st x y).2 = b) ∧
    (x + text.length ≤ b.width →
      (b.set_text text st x y).1 = Outcome.ok ∧
      (∀ i, i < text.length →
        ((b.set_text text st x y).2).cell_at (x + i) y =
          some ⟨text.getD i ' ', st.getD Style.default⟩) ∧
      (∀ u v, (u < x ∨ x + text.length ≤ u ∨ v ≠ y) →
        ((b.set_text text st x y).2).cell_at u v = b.cell_at u v)) := by
  by_cases hguard : x + text.length > b.width
  · refine ⟨?_, ?_, ?_⟩
    · simp [set_text, hguard]
    · intro _; simp [set_text, hguard]
    · intro h; omega
  · have hfit : x + text.length ≤ b.width := by omega
    obtain ⟨b1, hrun, _, _, _, hcells, hsame⟩ := setTextLoop_ok st y text x b hwf hy hfit
    have hst : b.set_text text st x y = (Outcome.ok, b1) := by
      simp [set_text, hguard, hrun]
    refine ⟨?_, ?_, ?_⟩
    · rw [hst]; simp; omega
    · intro h; omega
    · intro _
      rw [hst]
      exact ⟨rfl, hcells, hsame⟩

/-- Closed instance of `set_text_contract`: on a 10×10 buffer an 11-character
run is rejected with TextTooLong and the buffer is untouched, while a
3-character run on a 3×3 buffer succeeds. -/
theorem set_text_contract_witness :
    ((new 10 10).set_text (List.replicate 11 'N') none 0 0).1 =
      Outcome.err CanvasErr.textTooLong ∧
    ((new 10 10).set_text (List.replicate 11 'N') none 0 0).2 = new 10 10 ∧
    ((new 3 3).set_text ['A', 'B', 'C'] none 0 0).1 = Outcome.ok := by
  obtain ⟨hiff, hunch, -⟩ :=
    set_text_contract (new 10 10) (List.replicate 11 'N') none 0 0 (by decide) (by decide)
  obtain ⟨-, -, hok⟩ :=
    set_text_contract (new 3 3) ['A', 'B', 'C'] none 0 0 (by decide) (by decide)
  exact ⟨hiff.mpr (by decide), hunch (by decide), (hok (by decide)).1⟩

/-- C8: on every buffer, `set_char` at a coordinate with `x ≥ width` or
`y ≥ height` fails fast as a defect: it panics, leaving the buffer untouched,
rather than silently succeeding, silently clipping, or returning a
recoverable error. -/
theorem set_char_oob_defect (b : RenderBuffer) (ch : Char) (st : Option Style) (x y : Nat)
    (h : b.width ≤ x ∨ b.height ≤ y) :
    b.set_char ch st x y = (Outcome.panicked, b) :=
  set_char_oob b ch st h

/-- Closed instance of `set_char_oob_defect`: on a 10×10 buffer, `set_char`
at `(3, 20)` panics. -/
theorem set_char_oob_defect_witness :
    (new 10 10).set_char 'A' none 3 20 = (Outcome.panicked, new 10 10) :=
  set_char_oob_defect (new 10 10) 'A' none 3 20 (by decide)

theorem diffCols_spec (B P : RenderBuffer) (y : Nat)
    (hwfB : B.wf) (hwfP : P.wf) (hw : B.width = P.width) (hyB : y < B.height)
    (hyP : y < P.height) :
    ∀ xs : List Nat, (∀ x ∈ xs, x < B.width) → xs.Pairwise (· < ·) →
    ∃ row, diffCols B P y xs = some row ∧
      (∀ ch : BufferChange, ch ∈ row ↔
        (ch.y = y ∧ ch.x ∈ xs ∧ ∃ c oc, B.cell_at ch.x y = some c ∧
          P.cell_at ch.x y = some oc ∧ c ≠ oc ∧ ch.cell = c)) ∧
      row.Pairwise (fun a b => a.x < b.x) := by
  intro xs
  induction xs with
  | nil =>
    intro _ _
    refine ⟨[], rfl, ?_, List.Pairwise.nil⟩
    intro ch
    simp
  | cons x xs ih =>
    intro hbound hsorted
    have hx : x < B.width := hbound x (List.mem_cons_self x xs)
    have hxP : x < P.width := hw ▸ hx
    obtain ⟨c, hc⟩ := cell_at_of_wf B hwfB hx hyB
    obtain ⟨oc, hoc⟩ := cell_at_of_wf P hwfP hxP hyP
    obtain ⟨rest, hrest, hmem, hpw⟩ :=
      ih (fun z hz => hbound z (List.mem_cons_of_mem x hz)) (List.Pairwise.sublist (List.sublist_cons_self x xs) hsorted)
    have hlt : ∀ z ∈ xs, x < z := fun z hz => List.rel_of_pairwise_cons hsorted hz
    refine ⟨if c ≠ oc then ⟨c, x, y⟩ :: rest else rest, ?_, ?_, ?_⟩
    · simp only [diffCols, hc, hoc, hrest]
    · intro ch
      by_cases hne : c = oc
      · simp only [hne, ne_eq, not_true_eq_false, if_false]
        rw [hmem ch]
        constructor
        · rintro ⟨h1, h2, h3⟩
          exact ⟨h1, List.mem_cons_of_mem x h2, h3⟩
        · rintro ⟨h1, h2, c2, oc2, hc2, hoc2, hne2, hcell2⟩
          rcases List.mem_cons.mp h2 with rfl | h2'
          · rw [hc] at hc2
            rw [hoc] at hoc2
            have hco : c2 = oc2 := by
              rw [← Option.some_inj.mp hc2, ← Option.some_inj.mp hoc2]
              exact hne
            exact absurd hco hne2
          · exact ⟨h1, h2', c2, oc2, hc2, hoc2, hne2, hcell2⟩
      · simp only [ne_eq, hne, not_false_eq_true, if_true]
        rw [List.mem_cons, hmem ch]
        constructor
        · rintro (rfl | ⟨h1, h2, h3⟩)
          · exact ⟨rfl, List.mem_cons_self x xs, c, oc, hc, hoc, hne, rfl⟩
          · exact ⟨h1, List.mem_cons_of_mem x h2, h3⟩
        · rintro ⟨h1, h2, c2, oc2, hc2, hoc2, hne2, hcell2⟩
          rcases List.mem_cons.mp h2 with heq | h2'
          · left
            rw [heq] at hc2
            rw [hc] at hc2
            cases ch with
            | mk cell cx cy =>
              simp only at h1 heq hcell2
              rw [h1, heq, hcell2, Option.some_inj.mp hc2]
          · right
            exact ⟨h1, h2', c2, oc2, hc2, hoc2, hne2, hcell2⟩
    · by_cases hne : c = oc
      · simpa [hne] using hpw
      · simp only [ne_eq, hne, not_false_eq_true, if_true]
        refine List.pairwise_cons.mpr ⟨?_, hpw⟩
        intro ch hch
        obtain ⟨_, hxs, _⟩ := (hmem ch).mp hch
        exact hlt ch.x hxs

theorem diffRows_spec (B P : RenderBuffer)
    (hwfB : B.wf) (hwfP : P.wf) (hw : B.width = P.width) (hh : B.height = P.height) :
    ∀ ys : List Nat, (∀ y ∈ ys, y < B.height) → ys.Pairwise (· < ·) →
    ∃ L, diffRows B P ys = some L ∧
      (∀ ch : BufferChange, ch ∈ L ↔
        (ch.y ∈ ys ∧ ch.x < B.width ∧ ∃ c oc, B.cell_at ch.x ch.y = some c ∧
          P.cell_at ch.x ch.y = some oc ∧ c ≠ oc ∧ ch.cell = c)) ∧
      L.Pairwise (fun a b => a.y < b.y ∨ (a.y = b.y ∧ a.x < b.x)) := by
  intro ys
  induction ys with
  | nil =>
    intro _ _
    refine ⟨[], rfl, ?_, List.Pairwise.nil⟩
    intro ch
    simp
  | cons y ys ih =>
    intro hbound hsorted
    have hy : y < B.height := hbound y (List.mem_cons_self y ys)
    obtain ⟨row, hrow, hrmem, hrpw⟩ :=
      diffCols_spec B P y hwfB hwfP hw hy (hh ▸ hy) (List.range B.width)
        (fun z hz => List.mem_range.mp hz) (List.pairwise_lt_range B.width)
    obtain ⟨rest, hrest, hmem, hpw⟩ :=
      ih (fun z hz => hbound z (List.mem_cons_of_mem y hz))
        (List.Pairwise.sublist (List.sublist_cons_self y ys) hsorted)
    have hlt : ∀ z ∈ ys, y < z := fun z hz => List.rel_of_pairwise_cons hsorted hz
    refine ⟨row ++ rest, ?_, ?_, ?_⟩
    · simp only [diffRows, hrow, hrest]
    · intro ch
      rw [List.mem_append, hrmem ch, hmem ch]
      constructor
      · rintro (⟨h1, h2, h3⟩ | ⟨h1, h2, h3⟩)
        · exact ⟨h1 ▸ List.mem_cons_self y ys, List.mem_range.mp h2, h1 ▸ h3⟩
        · exact ⟨List.mem_cons_of_mem y h1, h2, h3⟩
      · rintro ⟨h1, h2, h3⟩
        rcases List.mem_cons.mp h1 with heq | h1'
        · exact Or.inl ⟨heq, List.mem_range.mpr h2, heq ▸ h3⟩
        · exact Or.inr ⟨h1', h2, h3⟩
    · rw [List.pairwise_append]
      refine ⟨?_, hpw, ?_⟩
      · refine List.Pairwise.imp_of_mem ?_ hrpw
        intro a b ha hb hab
        obtain ⟨hay, _, _⟩ := (hrmem a).mp ha
        obtain ⟨hby, _, _⟩ := (hrmem b).mp hb
        exact Or.inr ⟨hay.trans hby.symm, hab⟩
      · intro a ha b hb
        obtain ⟨hay, _, _⟩ := (hrmem a).mp ha
        obtain ⟨hby, _, _⟩ := (hmem b).mp hb
        exact Or.inl (hay ▸ hlt b.y hby)

/-- C1: for well-formed buffers of identical dimensions, `diff` returns
exactly the triples `(x, y, cell of B)` at which the two buffers differ,
listed in row-major scan order (y ascending, then x ascending within a row);
diff of a buffer against itself is empty; and on a 3×3 buffer carrying
`set_text "ABC"` at `(0, 0)`, the diff against the empty buffer is exactly
`[(0,0,'A'), (1,0,'B'), (2,0,'C')]` in that order. -/
theorem diff_row_major :
    (∀ B P : RenderBuffer, B.wf → P.wf → B.width = P.width → B.height = P.height →
      ∃ L, B.diff P = some L ∧
        (∀ ch : BufferChange, ch ∈ L ↔
          ∃ c oc, B.cell_at ch.x ch.y = some c ∧ P.cell_at ch.x ch.y = some oc ∧
            c ≠ oc ∧ ch.cell = c) ∧
        L.Pairwise (fun a b => a.y < b.y ∨ (a.y = b.y ∧ a.x < b.x))) ∧
    (∀ B : RenderBuffer, B.wf → B.diff B = some []) ∧
    ((new 3 3).set_text ['A', 'B', 'C'] none 0 0).2.diff (new 3 3) =
      some [⟨⟨'A', Style.default⟩, 0, 0⟩, ⟨⟨'B', Style.default⟩, 1, 0⟩,
        ⟨⟨'C', Style.default⟩, 2, 0⟩] := by
  have main : ∀ B P : RenderBuffer, B.wf → P.wf → B.width = P.width → B.height = P.height →
      ∃ L, B.diff P = some L ∧
        (∀ ch : BufferChange, ch ∈ L ↔
          ∃ c oc, B.cell_at ch.x ch.y = some c ∧ P.cell_at ch.x ch.y = some oc ∧
            c ≠ oc ∧ ch.cell = c) ∧
        L.Pairwise (fun a b => a.y < b.y ∨ (a.y = b.y ∧ a.x < b.x)) := by
    intro B P hwfB hwfP hw hh
    obtain ⟨L, hL, hmem, hpw⟩ :=
      diffRows_spec B P hwfB hwfP hw hh (List.range B.height)
        (fun z hz => List.mem_range.mp hz) (List.pairwise_lt_range B.height)
    refine ⟨L, hL, ?_, hpw⟩
    intro ch
    rw [hmem ch]
    constructor
    · rintro ⟨_, _, h3⟩
      exact h3
    · rintro ⟨c, oc, hc, hoc, hne, hcell⟩
      obtain ⟨hxw, hyh⟩ := cell_at_some_bounds hc
      exact ⟨List.mem_range.mpr hyh, hxw, c, oc, hc, hoc, hne, hcell⟩
  refine ⟨main, ?_, by decide⟩
  intro B hwf
  obtain ⟨L, hL, hmem, _⟩ := main B B hwf hwf rfl rfl
  have hnil : L = [] := by
    rw [List.eq_nil_iff_forall_not_mem]
    intro ch hch
    obtain ⟨c, oc, hc, hoc, hne, _⟩ := (hmem ch).mp hch
    rw [hc] at hoc
    exact hne (Option.some_inj.mp hoc)
  rw [hnil] at hL
  exact hL

/-- Closed instance of `diff_row_major`: the general clause applied to a pair
of concrete 2×2 buffers. -/
theorem diff_row_major_witness :
    ∃ L, (new 2 2).diff (new 2 2) = some L ∧
      (∀ ch : BufferChange, ch ∈ L ↔
        ∃ c oc, (new 2 2).cell_at ch.x ch.y = some c ∧
          (new 2 2).cell_at ch.x ch.y = some oc ∧ c ≠ oc ∧ ch.cell = c) ∧
      L.Pairwise (fun a b => a.y < b.y ∨ (a.y = b.y ∧ a.x < b.x)) :=
  diff_row_major.1 (new 2 2) (new 2 2) (by decide) (by decide) rfl rfl

theorem borderRowLoop_ok (st : Option Style) (y yb : Nat) :
    ∀ (is : List Nat) (b : RenderBuffer), b.wf → y < b.height → yb < b.height →
      (∀ i ∈ is, i < b.width) →
    ∃ b1, borderRowLoop st y (some yb) is b = (Outcome.ok, b1) ∧
      b1.width = b.width ∧ b1.height = b.height ∧ b1.wf ∧
      ∀ u v, b1.cell_at u v =
        if u ∈ is ∧ (v = y ∨ v = yb) then some ⟨'─', st.getD Style.default⟩
        else b.cell_at u v := by
  intro is
  induction is with
  | nil =>
    intro b hwf _ _ _
    exact ⟨b, rfl, rfl, rfl, hwf, fun u v => by simp⟩
  | cons i is ih =>
    intro b hwf hy hyb hbound
    have hi : i < b.width := hbound i (List.mem_cons_self i is)
    have hfst1 : (b.set_char '─' st i y).1 = Outcome.ok := by
      rw [set_char_ok b '─' st hwf hi hy]
    have hp1 : b.set_char '─' st i y = (Outcome.ok, (b.set_char '─' st i y).2) := by
      rw [← hfst1]
    set c1 : RenderBuffer := (b.set_char '─' st i y).2 with hc1
    have hd1 := set_char_dims b '─' st i y
    have hwf1 : c1.wf := set_char_wf b '─' st i y hwf
    have hcell1 : ∀ u v, c1.cell_at u v =
        if u = i ∧ v = y then some ⟨'─', st.getD Style.default⟩ else b.cell_at u v :=
      fun u v => cell_at_set_char b '─' st hwf hi hy u v
    have hi2 : i < c1.width := by rw [hd1.1]; exact hi
    have hyb2 : yb < c1.height := by rw [hd1.2.1]; exact hyb
    have hfst2 : (c1.set_char '─' st i yb).1 = Outcome.ok := by
      rw [set_char_ok c1 '─' st hwf1 hi2 hyb2]
    have hp2 : c1.set_char '─' st i yb = (Outcome.ok, (c1.set_char '─' st i yb).2) := by
      rw [← hfst2]
    set c2 : RenderBuffer := (c1.set_char '─' st i yb).2 with hc2
    have hd2 := set_char_dims c1 '─' st i yb
    have hwf2 : c2.wf := set_char_wf c1 '─' st i yb hwf1
    have hcell2 : ∀ u v, c2.cell_at u v =
        if u = i ∧ v = yb then some ⟨'─', st.getD Style.default⟩ else c1.cell_at u v :=
      fun u v => cell_at_set_char c1 '─' st hwf1 hi2 hyb2 u v
    have hw2 : c2.width = b.width := by rw [hd2.1, hd1.1]
    have hh2 : c2.height = b.height := by rw [hd2.2.1, hd1.2.1]
    obtain ⟨b1, hrun, hw1, hh1, hwfb1, hcells⟩ :=
      ih c2 hwf2 (hh2 ▸ hy) (hh2 ▸ hyb)
        (fun z hz => hw2 ▸ hbound z (List.mem_cons_of_mem i hz))
    refine ⟨b1, ?_, by rw [hw1, hw2], by rw [hh1, hh2], hwfb1, ?_⟩
    · simp only [borderRowLoop, hp1, hp2]
      exact hrun
    · intro u v
      rw [hcells u v, hcell2 u v, hcell1 u v]
      simp only [List.mem_cons]
      split_ifs <;> first | rfl | tauto

theorem borderColLoop_ok (st : Option Style) (x xr : Nat) :
    ∀ (js : List Nat) (b : RenderBuffer), b.wf → x < b.width → xr < b.width →
      (∀ j ∈ js, j < b.height) →
    ∃ b1, borderColLoop st x xr js b = (Outcome.ok, b1) ∧
      b1.width = b.width ∧ b1.height = b.height ∧ b1.wf ∧
      ∀ u v, b1.cell_at u v =
        if (u = x ∨ u = xr) ∧ v ∈ js then some ⟨'│', st.getD Style.default⟩
        else b.cell_at u v := by
  intro js
  induction js with
  | nil =>
    intro b hwf _ _ _
    exact ⟨b, rfl, rfl, rfl, hwf, fun u v => by simp⟩
  | cons j js ih =>
    intro b hwf hx hxr hbound
    have hj : j < b.height := hbound j (List.mem_cons_self j js)
    have hfst1 : (b.set_char '│' st x j).1 = Outcome.ok := by
      rw [set_char_ok b '│' st hwf hx hj]
    have hp1 : b.set_char '│' st x j = (Outcome.ok, (b.set_char '│' st x j).2) := by
      rw [← hfst1]
    set c1 : RenderBuffer := (b.set_char '│' st x j).2 with hc1
    have hd1 := set_char_dims b '│' st x j
    have hwf1 : c1.wf := set_char_wf b '│' st x j hwf
    have hcell1 : ∀ u v, c1.cell_at u v =
        if u = x ∧ v = j then some ⟨'│', st.getD Style.default⟩ else b.cell_at u v :=
      fun u v => cell_at_set_char b '│' st hwf hx hj u v
    have hxr2 : xr < c1.width := by rw [hd1.1]; exact hxr
    have hj2 : j < c1.height := by rw [hd1.2.1]; exact hj
    have hfst2 : (c1.set_char '│' st xr j).1 = Outcome.ok := by
      rw [set_char_ok c1 '│' st hwf1 hxr2 hj2]
    have hp2 : c1.set_char '│' st xr j = (Outcome.ok, (c1.set_char '│' st xr j).2) := by
      rw [← hfst2]
    set c2 : RenderBuffer := (c1.set_char '│' st xr j).2 with hc2
    have hd2 := set_char_dims c1 '│' st xr j
    have hwf2 : c2.wf := set_char_wf c1 '│' st xr j hwf1
    have hcell2 : ∀ u v, c2.cell_at u v =
        if u = xr ∧ v = j then some ⟨'│', st.getD Style.default⟩ else c1.cell_at u v :=
      fun u v => cell_at_set_char c1 '│' st hwf1 hxr2 hj2 u v
    have hw2 : c2.width = b.width := by rw [hd2.1, hd1.1]
    have hh2 : c2.height = b.height := by rw [hd2.2.1, hd1.2.1]
    obtain ⟨b1, hrun, hw1, hh1, hwfb1, hcells⟩ :=
      ih c2 hwf2 (hw2 ▸ hx) (hw2 ▸ hxr)
        (fun z hz => hh2 ▸ hbound z (List.mem_cons_of_mem j hz))
    refine ⟨b1, ?_, by rw [hw1, hw2], by rw [hh1, hh2], hwfb1, ?_⟩
    · simp only [borderColLoop, hp1, hp2]
      exact hrun
    · intro u v
      rw [hcells u v, hcell2 u v, hcell1 u v]
      simp only [List.mem_cons]
      split_ifs <;> first | rfl | tauto

theorem draw_border_ok (b : RenderBuffer) (x y w h : Nat) (st : Option Style)
    (hwf : b.wf) (hxw : x + w ≤ b.width) (hyh : y + h ≤ b.height)
    (hw1 : 1 ≤ w) (hh1 : 1 ≤ h) :
    ∃ b1, b.draw_border x y w h st = (Outcome.ok, b1) ∧
      b1.width = b.width ∧ b1.height = b.height ∧ b1.wf ∧
      ∀ u v, b1.cell_at u v =
        if u = x ∧ v = y + h - 1 then some ⟨'└', st.getD Style.default⟩
        else if u = x + w - 1 ∧ v = y + h - 1 then some ⟨'┘', st.getD Style.default⟩
        else if u = x + w - 1 ∧ v = y then some ⟨'┐', st.getD Style.default⟩
        else if u = x ∧ v = y then some ⟨'┌', st.getD Style.default⟩
        else if (u = x ∨ u = x + w - 1) ∧ v ∈ List.range' (y + 1) (y + h - 1 - (y + 1)) then
          some ⟨'│', st.getD Style.default⟩
        else if u ∈ List.range' (x + 1) (x + w - 1 - (x + 1)) ∧ (v = y ∨ v = y + h - 1) then
          some ⟨'─', st.getD Style.default⟩
        else b.cell_at u v := by
  have hg1 : ¬ (x + w > b.width) := by omega
  have hg2 : ¬ (y + h > b.height) := by omega
  have hcs1 : checkedSub (x + w) 1 = some (x + w - 1) := by
    unfold checkedSub
    rw [if_pos (by omega)]
  have hcs2 : checkedSub (y + h) 1 = some (y + h - 1) := by
    unfold checkedSub
    rw [if_pos (by omega)]
  have hxrW : x + w - 1 < b.width := by omega
  have hxW : x < b.width := by omega
  have hyH : y < b.height := by omega
  have hybH : y + h - 1 < b.height := by omega
  obtain ⟨b1, hrow, hw1', hh1', hwf1, hcell1⟩ :=
    borderRowLoop_ok st y (y + h - 1) (List.range' (x + 1) (x + w - 1 - (x + 1))) b
      hwf hyH hybH
      (fun z hz => by
        have := List.mem_range'_1.mp hz
        omega)
  obtain ⟨b2, hcol, hw2', hh2', hwf2, hcell2⟩ :=
    borderColLoop_ok st x (x + w - 1) (List.range' (y + 1) (y + h - 1 - (y + 1))) b1
      hwf1 (hw1' ▸ hxW) (hw1' ▸ hxrW)
      (fun z hz => by
        have := List.mem_range'_1.mp hz
        rw [hh1']
        omega)
  have hxW2 : x < b2.width := by rw [hw2', hw1']; exact hxW
  have hxrW2 : x + w - 1 < b2.width := by rw [hw2', hw1']; exact hxrW
  have hyH2 : y < b2.height := by rw [hh2', hh1']; exact hyH
  have hybH2 : y + h - 1 < b2.height := by rw [hh2', hh1']; exact hybH
  have hfst3 : (b2.set_char '┌' st x y).1 = Outcome.ok := by
    rw [set_char_ok b2 '┌' st hwf2 hxW2 hyH2]
  have hp3 : b2.set_char '┌' st x y = (Outcome.ok, (b2.set_char '┌' st x y).2) := by
    rw [← hfst3]
  set b3 : RenderBuffer := (b2.set_char '┌' st x y).2 with hb3
  have hd3 := set_char_dims b2 '┌' st x y
  have hwf3 : b3.wf := set_char_wf b2 '┌' st x y hwf2
  have hcell3 : ∀ u v, b3.cell_at u v =
      if u = x ∧ v = y then some ⟨'┌', st.getD Style.default⟩ else b2.cell_at u v :=
    fun u v => cell_at_set_char b2 '┌' st hwf2 hxW2 hyH2 u v
  have hxrW3 : x + w - 1 < b3.width := by rw [hd3.1]; exact hxrW2
  have hyH3 : y < b3.height := by rw [hd3.2.1]; exact hyH2
  have hfst4 : (b3.set_char '┐' st (x + w - 1) y).1 = Outcome.ok := by
    rw [set_char_ok b3 '┐' st hwf3 hxrW3 hyH3]
  have hp4 : b3.set_char '┐' st (x + w - 1) y =
      (Outcome.ok, (b3.set_char '┐' st (x + w - 1) y).2) := by
    rw [← hfst4]
  set b4 : RenderBuffer := (b3.set_char '┐' st (x + w - 1) y).2 with hb4
  have hd4 := set_char_dims b3 '┐' st (x + w - 1) y
  have hwf4 : b4.wf := set_char_wf b3 '┐' st (x + w - 1) y hwf3
  have hcell4 : ∀ u v, b4.cell_at u v =
      if u = x + w - 1 ∧ v = y then some ⟨'┐', st.getD Style.default⟩ else b3.cell_at u v :=
    fun u v => cell_at_set_char b3 '┐' st hwf3 hxrW3 hyH3 u v
  have hxrW4 : x + w - 1 < b4.width := by rw [hd4.1]; exact hxrW3
  have hybH4 : y + h - 1 < b4.height := by rw [hd4.2.1, hd3.2.1]; exact hybH2
  have hfst5 : (b4.set_char '┘' st (x + w - 1) (y + h - 1)).1 = Outcome.ok := by
    rw [set_char_ok b4 '┘' st hwf4 hxrW4 hybH4]
  have hp5 : b4.set_char '┘' st (x + w - 1) (y + h - 1) =
      (Outcome.ok, (b4.set_char '┘' st (x + w - 1) (y + h - 1)).2) := by
    rw [← hfst5]
  set b5 : RenderBuffer := (b4.set_char '┘' st (x + w - 1) (y + h - 1)).2 with hb5
  have hd5 := set_char_dims b4 '┘' st (x + w - 1) (y + h - 1)
  have hwf5 : b5.wf := set_char_wf b4 '┘' st (x + w - 1) (y + h - 1) hwf4
  have hcell5 : ∀ u v, b5.cell_at u v =
      if u = x + w - 1 ∧ v = y + h - 1 then some ⟨'┘', st.getD Style.default⟩
      else b4.cell_at u v :=
    fun u v => cell_at_set_char b4 '┘' st hwf4 hxrW4 hybH4 u v
  have hxW5 : x < b5.width := by rw [hd5.1, hd4.1, hd3.1]; exact hxW2
  have hybH5 : y + h - 1 < b5.height := by rw [hd5.2.1]; exact hybH4
  have hfst6 : (b5.set_char '└' st x (y + h - 1)).1 = Outcome.ok := by
    rw [set_char_ok b5 '└' st hwf5 hxW5 hybH5]
  have hp6 : b5.set_char '└' st x (y + h - 1) =
      (Outcome.ok, (b5.set_char '└' st x (y + h - 1)).2) := by
    rw [← hfst6]
  set b6 : RenderBuffer := (b5.set_char '└' st x (y + h - 1)).2 with hb6
  have hd6 := set_char_dims b5 '└' st x (y + h - 1)
  have hwf6 : b6.wf := set_char_wf b5 '└' st x (y + h - 1) hwf5
  have hcell6 : ∀ u v, b6.cell_at u v =
      if u = x ∧ v = y + h - 1 then some ⟨'└', st.getD Style.default⟩
      else b5.cell_at u v :=
    fun u v => cell_at_set_char b5 '└' st hwf5 hxW5 hybH5 u v
  refine ⟨b6, ?_, ?_, ?_, hwf6, ?_⟩
  · simp only [draw_border, if_neg hg1, if_neg hg2, hcs1, hcs2, hrow, hcol,
      hp3, hp4, hp5, hp6]
  · rw [hd6.1, hd5.1, hd4.1, hd3.1, hw2', hw1']
  · rw [hd6.2.1, hd5.2.1, hd4.2.1, hd3.2.1, hh2', hh1']
  · intro u v
    rw [hcell6 u v, hcell5 u v, hcell4 u v, hcell3 u v, hcell2 u v, hcell1 u v]

theorem borderRowLoop_no_err (st : Option Style) (y : Nat) (ybot : Option Nat) :
    ∀ (is : List Nat) (b : RenderBuffer), b.wf →
      (∀ e, (borderRowLoop st y ybot is b).1 ≠ Outcome.err e) ∧
      ((borderRowLoop st y ybot is b).2).wf := by
  intro is
  induction is with
  | nil =>
    intro b hwf
    exact ⟨fun e => by simp [borderRowLoop], by simpa [borderRowLoop] using hwf⟩
  | cons i is ih =>
    intro b hwf
    have hno1 := set_char_no_err b '─' st i y hwf
    have hwf1 := set_char_wf b '─' st i y hwf
    rcases hp1 : b.set_char '─' st i y with ⟨o1, c1⟩
    rw [hp1] at hno1 hwf1
    cases o1 with
    | err e2 => exact absurd rfl (hno1 e2)
    | panicked =>
      refine ⟨fun e => ?_, ?_⟩
      · simp [borderRowLoop, hp1]
      · simp only [borderRowLoop, hp1]
        exact hwf1
    | ok =>
      cases ybot with
      | none =>
        refine ⟨fun e => ?_, ?_⟩
        · simp [borderRowLoop, hp1]
        · simp only [borderRowLoop, hp1]
          exact hwf1
      | some yb =>
        have hno2 := set_char_no_err c1 '─' st i yb hwf1
        have hwf2 := set_char_wf c1 '─' st i yb hwf1
        rcases hp2 : c1.set_char '─' st i yb with ⟨o2, c2⟩
        rw [hp2] at hno2 hwf2
        cases o2 with
        | err e2 => exact absurd rfl (hno2 e2)
        | panicked =>
          refine ⟨fun e => ?_, ?_⟩
          · simp [borderRowLoop, hp1, hp2]
          · simp only [borderRowLoop, hp1, hp2]
            exact hwf2
        | ok =>
          obtain ⟨hne, hwfr⟩ := ih c2 hwf2
          refine ⟨fun e => ?_, ?_⟩
          · simpa [borderRowLoop, hp1, hp2] using hne e
          · simpa [borderRowLoop, hp1, hp2] using hwfr

theorem borderColLoop_no_err (st : Option Style) (x xr : Nat) :
    ∀ (js : List Nat) (b : RenderBuffer), b.wf →
      (∀ e, (borderColLoop st x xr js b).1 ≠ Outcome.err e) ∧
      ((borderColLoop st x xr js b).2).wf := by
  intro js
  induction js with
  | nil =>
    intro b hwf
    exact ⟨fun e => by simp [borderColLoop], by simpa [borderColLoop] using hwf⟩
  | cons j js ih =>
    intro b hwf
    have hno1 := set_char_no_err b '│' st x j hwf
    have hwf1 := set_char_wf b '│' st x j hwf
    rcases hp1 : b.set_char '│' st x j with ⟨o1, c1⟩
    rw [hp1] at hno1 hwf1
    cases o1 with
    | err e2 => exact absurd rfl (hno1 e2)
    | panicked =>
      refine ⟨fun e => ?_, ?_⟩
      · simp [borderColLoop, hp1]
      · simp only [borderColLoop, hp1]
        exact hwf1
    | ok =>
      have hno2 := set_char_no_err c1 '│' st xr j hwf1
      have hwf2 := set_char_wf c1 '│' st xr j hwf1
      rcases hp2 : c1.set_char '│' st xr j with ⟨o2, c2⟩
      rw [hp2] at hno2 hwf2
      cases o2 with
      | err e2 => exact absurd rfl (hno2 e2)
      | panicked =>
        refine ⟨fun e => ?_, ?_⟩
        · simp [borderColLoop, hp1, hp2]
        · simp only [borderColLoop, hp1, hp2]
          exact hwf2
      | ok =>
        obtain ⟨hne, hwfr⟩ := ih c2 hwf2
        refine ⟨fun e => ?_, ?_⟩
        · simpa [borderColLoop, hp1, hp2] using hne e
        · simpa [borderColLoop, hp1, hp2] using hwfr

theorem draw_border_err_width (b : RenderBuffer) (x y w h : Nat) (st : Option Style)
    (hx : b.width < x + w) :
    b.draw_border x y w h st = (Outcome.err CanvasErr.areaExceedsWidth, b) := by
  simp [draw_border, hx]

theorem draw_border_err_height (b : RenderBuffer) (x y w h : Nat) (st : Option Style)
    (hx : x + w ≤ b.width) (hy : b.height < y + h) :
    b.draw_border x y w h st = (Outcome.err CanvasErr.areaExceedsHeight, b) := by
  have hx' : ¬ (x + w > b.width) := by omega
  simp [draw_border, hx', hy]

theorem draw_border_no_err_of_fit (b : RenderBuffer) (x y w h : Nat) (st : Option Style)
    (hwf : b.wf) (hxw : x + w ≤ b.width) (hyh : y + h ≤ b.height) :
    ∀ e, (b.draw_border x y w h st).1 ≠ Outcome.err e := by
  have hg1 : ¬ (x + w > b.width) := by omega
  have hg2 : ¬ (y + h > b.height) := by omega
  intro e
  cases hcs1 : checkedSub (x + w) 1 with
  | none => simp [draw_border, if_neg hg1, if_neg hg2, hcs1]
  | some xr =>
    cases hcs2 : checkedSub (y + h) 1 with
    | none =>
      obtain ⟨hrowne, hrowwf⟩ := borderRowLoop_no_err st y none
        (List.range' (x + 1) (xr - (x + 1))) b hwf
      rcases hro : borderRowLoop st y none (List.range' (x + 1) (xr - (x + 1))) b with ⟨o1, c1⟩
      cases o1 with
      | ok => simp [draw_border, if_neg hg1, if_neg hg2, hcs1, hcs2, hro]
      | err e2 =>
        rw [hro] at hrowne
        exact absurd rfl (hrowne e2)
      | panicked => simp [draw_border, if_neg hg1, if_neg hg2, hcs1, hcs2, hro]
    | some yb =>
      obtain ⟨hrowne, hrowwf⟩ := borderRowLoop_no_err st y (some yb)
        (List.range' (x + 1) (xr - (x + 1))) b hwf
      rcases hro : borderRowLoop st y (some yb) (List.range' (x + 1) (xr - (x + 1))) b
        with ⟨o1, c1⟩
      rw [hro] at hrowne hrowwf
      cases o1 with
      | err e2 => exact absurd rfl (hrowne e2)
      | panicked => simp [draw_border, if_neg hg1, if_neg hg2, hcs1, hcs2, hro]
      | ok =>
        simp only [] at hrowwf
        obtain ⟨hcolne, hcolwf⟩ := borderColLoop_no_err st x xr
          (List.range' (y + 1) (yb - (y + 1))) c1 hrowwf
        rcases hco : borderColLoop st x xr (List.range' (y + 1) (yb - (y + 1))) c1
          with ⟨o2, c2⟩
        rw [hco] at hcolne hcolwf
        cases o2 with
        | err e2 => exact absurd rfl (hcolne e2)
        | panicked => simp [draw_border, if_neg hg1, if_neg hg2, hcs1, hcs2, hro, hco]
        | ok =>
          simp only [] at hcolwf
          have hwf3 : ((c2.set_char '┌' st x y).2).wf := set_char_wf c2 '┌' st x y hcolwf
          rcases h3 : c2.set_char '┌' st x y with ⟨o3, c3⟩
          rw [h3] at hwf3
          cases o3 with
          | err e2 => exact absurd h3 (by
              have := set_char_no_err c2 '┌' st x y hcolwf e2
              intro hh
              rw [hh] at this
              exact this rfl)
          | panicked => simp [draw_border, if_neg hg1, if_neg hg2, hcs1, hcs2, hro, hco, h3]
          | ok =>
            simp only [] at hwf3
            have hwf4 : ((c3.set_char '┐' st xr y).2).wf := set_char_wf c3 '┐' st xr y hwf3
            rcases h4 : c3.set_char '┐' st xr y with ⟨o4, c4⟩
            rw [h4] at hwf4
            cases o4 with
            | err e2 => exact absurd h4 (by
                have := set_char_no_err c3 '┐' st xr y hwf3 e2
                intro hh
                rw [hh] at this
                exact this rfl)
            | panicked =>
              simp [draw_border, if_neg hg1, if_neg hg2, hcs1, hcs2, hro, hco, h3, h4]
            | ok =>
              simp only [] at hwf4
              have hwf5 : ((c4.set_char '┘' st xr yb).2).wf :=
                set_char_wf c4 '┘' st xr yb hwf4
              rcases h5 : c4.set_char '┘' st xr yb with ⟨o5, c5⟩
              rw [h5] at hwf5
              cases o5 with
              | err e2 => exact absurd h5 (by
                  have := set_char_no_err c4 '┘' st xr yb hwf4 e2
                  intro hh
                  rw [hh] at this
                  exact this rfl)
              | panicked =>
                simp [draw_border, if_neg hg1, if_neg hg2, hcs1, hcs2, hro, hco, h3, h4, h5]
              | ok =>
                simp only [] at hwf5
                have h6ne := set_char_no_err c5 '└' st x yb hwf5 e
                rcases h6 : c5.set_char '└' st x yb with ⟨o6, c6⟩
                rw [h6] at h6ne
                simp [draw_border, if_neg hg1, if_neg hg2, hcs1, hcs2, hro, hco, h3, h4, h5, h6]
                intro hcon
                rw [hcon] at h6ne
                exact h6ne rfl

/-- C6 counterexample: on a 3×3 buffer the degenerate rectangle
`(x, y, w, h) = (0, 0, 0, 0)` fits (`0 + 0 ≤ 3` on both axes), yet
`draw_border` neither succeeds nor returns a recoverable error: it panics on
the `usize` underflow of `x + width - 1`.  The claim "whenever the rectangle
fits, draw_border succeeds" is therefore false as stated. -/
theorem draw_border_cex :
    0 + 0 ≤ (new 3 3).width ∧ 0 + 0 ≤ (new 3 3).height ∧
      ((new 3 3).draw_border 0 0 0 0 none).1 = Outcome.panicked := by
  decide

/-- C6 (amended): on a well-formed buffer, `draw_border` returns a
recoverable AreaExceedsBounds error exactly when the rectangle does not fit
(`x + w > width` or `y + h > height`), leaving the buffer unmodified on that
error; whenever the rectangle fits and `w ≥ 1` and `h ≥ 1` it succeeds (for
`w = 0` or `h = 0` it can instead panic on a `usize` underflow, see the
counterexample); and when moreover `w ≥ 2` and `h ≥ 2` it writes the frame
with the four distinct corner glyphs and the horizontal and vertical edge
glyphs. -/
theorem draw_border_contract (b : RenderBuffer) (x y w h : Nat) (st : Option Style)
    (hwf : b.wf) :
    ((∃ e, (b.draw_border x y w h st).1 = Outcome.err e) ↔
      (b.width < x + w ∨ b.height < y + h)) ∧
    ((b.width < x + w ∨ b.height < y + h) → (b.draw_border x y w h st).2 = b) ∧
    (x + w ≤ b.width → y + h ≤ b.height → 1 ≤ w → 1 ≤ h →
      (b.draw_border x y w h st).1 = Outcome.ok) ∧
    (x + w ≤ b.width → y + h ≤ b.height → 2 ≤ w → 2 ≤ h →
      ((b.draw_border x y w h st).2).cell_at x y = some ⟨'┌', st.getD Style.default⟩ ∧
      ((b.draw_border x y w h st).2).cell_at (x + w - 1) y =
        some ⟨'┐', st.getD Style.default⟩ ∧
      ((b.draw_border x y w h st).2).cell_at (x + w - 1) (y + h - 1) =
        some ⟨'┘', st.getD Style.default⟩ ∧
      ((b.draw_border x y w h st).2).cell_at x (y + h - 1) =
        some ⟨'└', st.getD Style.default⟩ ∧
      (∀ i, x + 1 ≤ i → i + 1 < x + w →
        ((b.draw_border x y w h st).2).cell_at i y = some ⟨'─', st.getD Style.default⟩ ∧
        ((b.draw_border x y w h st).2).cell_at i (y + h - 1) =
          some ⟨'─', st.getD Style.default⟩) ∧
      (∀ j, y + 1 ≤ j → j + 1 < y + h →
        ((b.draw_border x y w h st).2).cell_at x j = some ⟨'│', st.getD Style.default⟩ ∧
        ((b.draw_border x y w h st).2).cell_at (x + w - 1) j =
          some ⟨'│', st.getD Style.default⟩)) := by
  refine ⟨⟨?_, ?_⟩, ?_, ?_, ?_⟩
  · rintro ⟨e, he⟩
    by_contra hcon
    push_neg at hcon
    exact draw_border_no_err_of_fit b x y w h st hwf hcon.1 hcon.2 e he
  · intro hnf
    by_cases hx : b.width < x + w
    · exact ⟨CanvasErr.areaExceedsWidth, by rw [draw_border_err_width b x y w h st hx]⟩
    · have hy : b.height < y + h := by omega
      exact ⟨CanvasErr.areaExceedsHeight,
        by rw [draw_border_err_height b x y w h st (by omega) hy]⟩
  · intro hnf
    by_cases hx : b.width < x + w
    · rw [draw_border_err_width b x y w h st hx]
    · have hy : b.height < y + h := by omega
      rw [draw_border_err_height b x y w h st (by omega) hy]
  · intro h1 h2 h3 h4
    obtain ⟨b1, heq, _, _, _, _⟩ := draw_border_ok b x y w h st hwf h1 h2 h3 h4
    rw [heq]
  · intro h1 h2 h3 h4
    obtain ⟨b1, heq, _, _, _, hcells⟩ :=
      draw_border_ok b x y w h st hwf h1 h2 (by omega) (by omega)
    have hsnd : (b.draw_border x y w h st).2 = b1 := by rw [heq]
    refine ⟨?_, ?_, ?_, ?_, ?_, ?_⟩
    · rw [hsnd, hcells x y,
        if_neg (by rintro ⟨-, hv⟩; omega),
        if_neg (by rintro ⟨hu, -⟩; omega),
        if_neg (by rintro ⟨hu, -⟩; omega),
        if_pos ⟨rfl, rfl⟩]
    · rw [hsnd, hcells (x + w - 1) y,
        if_neg (by rintro ⟨hu, -⟩; omega),
        if_neg (by rintro ⟨-, hv⟩; omega),
        if_pos ⟨rfl, rfl⟩]
    · rw [hsnd, hcells (x + w - 1) (y + h - 1),
        if_neg (by rintro ⟨hu, -⟩; omega),
        if_pos ⟨rfl, rfl⟩]
    · rw [hsnd, hcells x (y + h - 1), if_pos ⟨rfl, rfl⟩]
    · intro i hi1 hi2
      constructor
      · rw [hsnd, hcells i y,
          if_neg (by rintro ⟨-, hv⟩; omega),
          if_neg (by rintro ⟨hu, -⟩; omega),
          if_neg (by rintro ⟨hu, -⟩; omega),
          if_neg (by rintro ⟨hu, -⟩; omega),
          if_neg (by rintro ⟨hu | hu, -⟩ <;> omega),
          if_pos ⟨List.mem_range'_1.mpr ⟨by omega, by omega⟩, Or.inl rfl⟩]
      · rw [hsnd, hcells i (y + h - 1),
          if_neg (by rintro ⟨hu, -⟩; omega),
          if_neg (by rintro ⟨hu, -⟩; omega),
          if_neg (by rintro ⟨-, hv⟩; omega),
          if_neg (by rintro ⟨hu, -⟩; omega),
          if_neg (by rintro ⟨hu | hu, -⟩ <;> omega),
          if_pos ⟨List.mem_range'_1.mpr ⟨by omega, by omega⟩, Or.inr rfl⟩]
    · intro j hj1 hj2
      constructor
      · rw [hsnd, hcells x j,
          if_neg (by rintro ⟨-, hv⟩; omega),
          if_neg (by rintro ⟨hu, -⟩; omega),
          if_neg (by rintro ⟨hu, -⟩; omega),
          if_neg (by rintro ⟨-, hv⟩; omega),
          if_pos ⟨Or.inl rfl, List.mem_range'_1.mpr ⟨by omega, by omega⟩⟩]
      · rw [hsnd, hcells (x + w - 1) j,
          if_neg (by rintro ⟨hu, -⟩; omega),
          if_neg (by rintro ⟨-, hv⟩; omega),
          if_neg (by rintro ⟨-, hv⟩; omega),
          if_neg (by rintro ⟨hu, -⟩; omega),
          if_pos ⟨Or.inr rfl, List.mem_range'_1.mpr ⟨by omega, by omega⟩⟩]

/-- Closed instance of `draw_border_contract`: a full 3×3 border on a 4×4
buffer succeeds and the top-left corner cell holds `┌`. -/
theorem draw_border_contract_witness :
    ((new 4 4).draw_border 0 0 3 3 none).1 = Outcome.ok ∧
    ((new 4 4).draw_border 0 0 3 3 none).2.cell_at 0 0 = some ⟨'┌', Style.default⟩ := by
  obtain ⟨-, -, hok, hglyph⟩ := draw_border_contract (new 4 4) 0 0 3 3 none (by decide)
  refine ⟨hok (by decide) (by decide) (by decide) (by decide), ?_⟩
  have hc := (hglyph (by decide) (by decide) (by decide) (by decide)).1
  simpa using hc

end RenderBuffer

/-! ## The window-size parser -/

theorem shiftLeft8_lor_eq (a c : Nat) (hc : c < 256) : (a <<< 8) ||| c = 256 * a + c := by
  apply Nat.eq_of_testBit_eq
  intro i
  rw [Nat.testBit_lor, Nat.testBit_shiftLeft]
  rcases Nat.lt_or_ge i 8 with hi | hi
  · have h1 : ¬ (i ≥ 8) := by omega
    simp only [ge_iff_le, h1, decide_False, Bool.false_and, Bool.false_or]
    rw [Nat.testBit_to_div_mod, Nat.testBit_to_div_mod]
    have h256 : (256 : Nat) * a = 2 ^ i * (2 ^ (8 - i) * a) := by
      rw [← mul_assoc, ← pow_add]
      have h2 : i + (8 - i) = 8 := by omega
      rw [h2]
      norm_num
    have hstep : (256 * a + c) / 2 ^ i = c / 2 ^ i + 2 ^ (8 - i) * a := by
      rw [h256, add_comm]
      exact Nat.add_mul_div_left c _ (Nat.pos_pow_of_pos i (by omega))
    rw [hstep]
    have h8i : 8 - i = (7 - i) + 1 := by omega
    have hmod : (c / 2 ^ i + 2 ^ (8 - i) * a) % 2 = c / 2 ^ i % 2 := by
      rw [h8i, pow_succ]
      rw [show 2 ^ (7 - i) * 2 * a = 2 * (2 ^ (7 - i) * a) by ring]
      exact Nat.add_mul_mod_self_left _ 2 _
    rw [hmod]
  · have h1 : i ≥ 8 := hi
    have hcbit : c.testBit i = false :=
      Nat.testBit_eq_false_of_lt (lt_of_lt_of_le hc
        (by calc (256 : Nat) = 2 ^ 8 := by norm_num
          _ ≤ 2 ^ i := Nat.pow_le_pow_right (by omega) hi))
    simp only [ge_iff_le, h1, decide_True, Bool.true_and, hcbit, Bool.or_false]
    rw [Nat.testBit_to_div_mod, Nat.testBit_to_div_mod]
    have hsplit : (2 : Nat) ^ i = 2 ^ 8 * 2 ^ (i - 8) := by
      rw [← pow_add]
      have h2 : 8 + (i - 8) = i := by omega
      rw [h2]
    have hdiv : (256 * a + c) / 2 ^ i = a / 2 ^ (i - 8) := by
      rw [hsplit, ← Nat.div_div_eq_div_mul]
      have h3 : (256 * a + c) / 2 ^ 8 = a := by
        rw [show (256 : Nat) * a + c = c + a * 2 ^ 8 by ring]
        rw [Nat.add_mul_div_right _ _ (by positivity)]
        rw [Nat.div_eq_of_lt (show c < 2 ^ 8 by norm_num; omega)]
        omega
      rw [h3]
    rw [hdiv]

theorem getD_drop_lt (bytes : List Nat) (hbytes : ∀ v ∈ bytes, v < 256)
    (hlen : 9 ≤ bytes.length) (i : Nat) (hi : i < 9) :
    (bytes.drop (bytes.length - 9)).getD i 0 < 256 := by
  have hdl : (bytes.drop (bytes.length - 9)).length = 9 := by
    rw [List.length_drop]
    omega
  have hidx : i < (bytes.drop (bytes.length - 9)).length := by omega
  rw [List.getD_eq_getElem _ _ hidx]
  exact hbytes _ (List.mem_of_mem_drop (List.getElem_mem hidx))

/-- C7: on every frame of at least 9 bytes (each byte below 256), the parser
takes the final 9 bytes as the window-size subnegotiation and returns width
as the big-endian 16-bit value at subnegotiation offsets 3–4 and height at
offsets 5–6. -/
theorem get_telnet_size_be16 (bytes : List Nat) (hlen : 9 ≤ bytes.length)
    (hbytes : ∀ v ∈ bytes, v < 256) :
    get_telnet_size bytes =
      some (256 * (bytes.drop (bytes.length - 9)).getD 3 0 +
          (bytes.drop (bytes.length - 9)).getD 4 0,
        256 * (bytes.drop (bytes.length - 9)).getD 5 0 +
          (bytes.drop (bytes.length - 9)).getD 6 0) := by
  have hnl : ¬ (bytes.length < 9) := by omega
  simp only [get_telnet_size, if_neg hnl]
  rw [shiftLeft8_lor_eq _ _ (getD_drop_lt bytes hbytes hlen 4 (by omega)),
    shiftLeft8_lor_eq _ _ (getD_drop_lt bytes hbytes hlen 6 (by omega))]

/-- Closed instance of `get_telnet_size_be16`: a trailer with width bytes
`00 50` and height bytes `00 18` parses to dimensions (80, 24). -/
theorem get_telnet_size_be16_witness :
    get_telnet_size [255, 250, 31, 0, 80, 0, 24, 255, 240] = some (80, 24) :=
  (get_telnet_size_be16 [255, 250, 31, 0, 80, 0, 24, 255, 240]
    (by decide) (by decide)).trans (by decide)

/-- C9: the parser returns Ok for every frame of length at least 9 regardless
of content (it never validates the subnegotiation header or terminator, and
its only failure mode is the panic on the slice `&bytes[len - 9..]`, never a
returned NegotiationFailure): every frame shorter than 9 bytes panics
(modelled by `none`). -/
theorem get_telnet_size_totality (bytes : List Nat) :
    (9 ≤ bytes.length → ∃ wh, get_telnet_size bytes = some wh) ∧
    (bytes.length < 9 → get_telnet_size bytes = none) := by
  constructor
  · intro h
    unfold get_telnet_size
    rw [if_neg (by omega)]
    exact ⟨_, rfl⟩
  · intro h
    unfold get_telnet_size
    rw [if_pos h]

/-- Closed instance of `get_telnet_size_totality`: a 9-byte frame of zeros
(not a valid subnegotiation at all) still parses to Ok, while a 2-byte frame
panics. -/
theorem get_telnet_size_totality_witness :
    (∃ wh, get_telnet_size [0, 0, 0, 0, 0, 0, 0, 0, 0] = some wh) ∧
      get_telnet_size [255, 250] = none :=
  ⟨(get_telnet_size_totality [0, 0, 0, 0, 0, 0, 0, 0, 0]).1 (by decide),
    (get_telnet_size_totality [255, 250]).2 (by decide)⟩

/-! ## Reachability of the out-of-bounds write in handle_event -/

/-- C4 (refuting the claimed safety property): from the empty world, register
one peer and apply MoveRight twice; the second action broadcasts the Room
Event with position set `[(2, 0)]`, and a session with negotiated dimensions
(2, 2) handling that event performs an out-of-bounds cell write — the `@`
glyph at x = 2 on a 2-wide buffer — and panics.  The OutOfBounds defect is
therefore reachable, because `move_peer` has no upper clamp while
`handle_event` writes unvalidated world positions. -/
theorem oob_reachable_from_world :
    (Shared.new.add_peer 0 0).move_peer 0 UserInput.moveRight =
      some (⟨[(0, ⟨0, PeerState.playing, (1, 0)⟩)]⟩,
        RoomEvent.peerMoved [(1, 0)], [0]) ∧
    (Shared.mk [(0, ⟨0, PeerState.playing, (1, 0)⟩)]).move_peer 0 UserInput.moveRight =
      some (⟨[(0, ⟨0, PeerState.playing, (2, 0)⟩)]⟩,
        RoomEvent.peerMoved [(2, 0)], [0]) ∧
    (handle_event (RoomEvent.peerMoved [(2, 0)]) (Canvas.new 2 2)).1 =
      Outcome.panicked := by
  decide

/-! ## The shared world state -/

theorem lookupAssoc_insertAssoc_self (l : List (Addr × PeerData)) (a : Addr) (d : PeerData) :
    lookupAssoc (insertAssoc l a d) a = some d := by
  induction l with
  | nil => simp [insertAssoc, lookupAssoc]
  | cons p rest ih =>
    obtain ⟨a1, d1⟩ := p
    by_cases hp : a1 = a
    · simp [insertAssoc, hp, lookupAssoc]
    · simp [insertAssoc, hp, lookupAssoc, ih]

theorem lookupAssoc_insertAssoc_ne (l : List (Addr × PeerData)) (a a' : Addr) (d : PeerData)
    (h : a' ≠ a) :
    lookupAssoc (insertAssoc l a d) a' = lookupAssoc l a' := by
  have hne : a ≠ a' := fun he => h he.symm
  induction l with
  | nil => simp [insertAssoc, lookupAssoc, hne]
  | cons p rest ih =>
    obtain ⟨a1, d1⟩ := p
    by_cases hp : a1 = a
    · subst hp
      have hne1 : a1 ≠ a' := hne
      simp [insertAssoc, lookupAssoc, hne1]
    · by_cases hq : a1 = a'
      · simp [insertAssoc, hp, lookupAssoc, hq, h]
      · simp [insertAssoc, hp, lookupAssoc, hq, ih]

theorem keys_insertAssoc (l : List (Addr × PeerData)) (a : Addr) (d : PeerData) :
    (insertAssoc l a d).map Prod.fst =
      if a ∈ l.map Prod.fst then l.map Prod.fst else l.map Prod.fst ++ [a] := by
  induction l with
  | nil => simp [insertAssoc]
  | cons p rest ih =>
    obtain ⟨a1, d1⟩ := p
    by_cases hp : a1 = a
    · subst hp
      simp [insertAssoc]
    · have hne : a ≠ a1 := fun he => hp he.symm
      by_cases hm : a ∈ rest.map Prod.fst
      · simp [insertAssoc, hp, hm, hne, ih]
      · simp [insertAssoc, hp, hm, hne, ih]

theorem nodup_keys_insertAssoc (l : List (Addr × PeerData)) (a : Addr) (d : PeerData)
    (h : (l.map Prod.fst).Nodup) :
    ((insertAssoc l a d).map Prod.fst).Nodup := by
  rw [keys_insertAssoc]
  split_ifs with hmem
  · exact h
  · rw [List.nodup_append]
    exact ⟨h, List.nodup_singleton a,
      fun z hz hz2 => hmem (by rwa [List.mem_singleton.mp hz2] at hz)⟩

theorem lookupAssoc_updateAssoc_self (f : PeerData → PeerData)
    (l : List (Addr × PeerData)) (a : Addr) (d : PeerData)
    (h : lookupAssoc l a = some d) :
    lookupAssoc (updateAssoc f l a) a = some (f d) := by
  induction l with
  | nil => simp [lookupAssoc] at h
  | cons p rest ih =>
    obtain ⟨a1, d1⟩ := p
    by_cases hp : a1 = a
    · rw [lookupAssoc, if_pos hp] at h
      simp [updateAssoc, hp, lookupAssoc, Option.some_inj.mp h]
    · rw [lookupAssoc, if_neg hp] at h
      simp [updateAssoc, hp, lookupAssoc, ih h]

theorem lookupAssoc_updateAssoc_ne (f : PeerData → PeerData)
    (l : List (Addr × PeerData)) (a a' : Addr) (h : a' ≠ a) :
    lookupAssoc (updateAssoc f l a) a' = lookupAssoc l a' := by
  induction l with
  | nil => simp [updateAssoc]
  | cons p rest ih =>
    obtain ⟨a1, d1⟩ := p
    by_cases hp : a1 = a
    · subst hp
      have hne : a1 ≠ a' := fun he => h he.symm
      simp [updateAssoc, lookupAssoc, hne]
    · by_cases hq : a1 = a'
      · simp [updateAssoc, hp, lookupAssoc, hq, h]
      · simp [updateAssoc, hp, lookupAssoc, hq, ih]

theorem keys_updateAssoc (f : PeerData → PeerData) (l : List (Addr × PeerData)) (a : Addr) :
    (updateAssoc f l a).map Prod.fst = l.map Prod.fst := by
  induction l with
  | nil => simp [updateAssoc]
  | cons p rest ih =>
    obtain ⟨a1, d1⟩ := p
    by_cases hp : a1 = a
    · simp [updateAssoc, hp]
    · simp [updateAssoc, hp, ih]

theorem map_snd_updateAssoc (g : PeerData → α) (f : PeerData → PeerData)
    (hf : ∀ d, g (f d) = g d) (l : List (Addr × PeerData)) (a : Addr) :
    (updateAssoc f l a).map (fun p => g p.2) = l.map (fun p => g p.2) := by
  induction l with
  | nil => simp [updateAssoc]
  | cons p rest ih =>
    obtain ⟨a1, d1⟩ := p
    by_cases hp : a1 = a
    · simp [updateAssoc, hp, hf]
    · simp [updateAssoc, hp, ih]

theorem map_pos_updateAssoc (f : PeerData → PeerData) :
    ∀ (l : List (Addr × PeerData)) (a : Addr), (l.map Prod.fst).Nodup →
    (updateAssoc f l a).map (fun p => p.2.position) =
      l.map (fun p => if p.1 = a then (f p.2).position else p.2.position) := by
  intro l
  induction l with
  | nil => intro a _; simp [updateAssoc]
  | cons p rest ih =>
    intro a hnodup
    obtain ⟨a1, d1⟩ := p
    rw [List.map_cons, List.nodup_cons] at hnodup
    by_cases hp : a1 = a
    · subst hp
      rw [show updateAssoc f ((a1, d1) :: rest) a1 = (a1, f d1) :: rest from by
        simp [updateAssoc]]
      rw [List.map_cons, List.map_cons, if_pos rfl]
      congr 1
      refine (List.map_congr_left ?_).symm
      intro q hq
      have hqa : q.1 ≠ a1 := by
        intro he
        have hm := List.mem_map_of_mem Prod.fst hq
        rw [he] at hm
        exact hnodup.1 hm
      rw [if_neg hqa]
    · simp only [updateAssoc, if_neg hp, List.map_cons, if_neg hp]
      rw [ih a hnodup.2]

/-- C2: for every world state and registered peer `addr`, `move_peer` sends
one copy of a single Room Event to the channel of every currently registered
peer including `addr` itself, and that event carries the positions of all
registered peers, with `addr` moved by the input and every other peer's
position (and every channel and key) unchanged. -/
theorem move_peer_broadcast (s : Shared) (addr : Addr) (input : UserInput) (d : PeerData)
    (hreg : lookupAssoc s.peers addr = some d)
    (hnodup : (s.peers.map Prod.fst).Nodup) :
    ∃ s1 : Shared,
      s.move_peer addr input =
        some (s1, RoomEvent.peerMoved (s1.peers.map (fun p => p.2.position)),
          s1.peers.map (fun p => p.2.tx)) ∧
      s1.peers.map (fun p => p.2.tx) = s.peers.map (fun p => p.2.tx) ∧
      s1.peers.map Prod.fst = s.peers.map Prod.fst ∧
      lookupAssoc s1.peers addr = some { d with position := movePos input d.position } ∧
      (∀ a', a' ≠ addr → lookupAssoc s1.peers a' = lookupAssoc s.peers a') ∧
      s1.peers.map (fun p => p.2.position) =
        s.peers.map (fun p =>
          if p.1 = addr then movePos input p.2.position else p.2.position) := by
  refine ⟨⟨updateAssoc (fun d0 => { d0 with position := movePos input d0.position })
      s.peers addr⟩, ?_, ?_, ?_, ?_, ?_, ?_⟩
  · simp [Shared.move_peer, hreg]
  · exact map_snd_updateAssoc (fun d0 => d0.tx)
      (fun d0 => { d0 with position := movePos input d0.position }) (fun d0 => rfl)
      s.peers addr
  · exact keys_updateAssoc _ s.peers addr
  · exact lookupAssoc_updateAssoc_self _ s.peers addr d hreg
  · exact fun a' ha' => lookupAssoc_updateAssoc_ne _ s.peers addr a' ha'
  · exact map_pos_updateAssoc _ s.peers addr hnodup

/-- Closed instance of `move_peer_broadcast`: two registered peers, A at
`(0, 0)` with channel 5 and B at `(3, 4)` with channel 7; A moves down.  The
event goes to both channels and carries A's new position and B's unchanged
one. -/
theorem move_peer_broadcast_witness :
    ∃ s1 : Shared,
      (Shared.mk [(0, ⟨5, PeerState.playing, (0, 0)⟩),
          (1, ⟨7, PeerState.playing, (3, 4)⟩)]).move_peer 0 UserInput.moveDown =
        some (s1, RoomEvent.peerMoved (s1.peers.map (fun p => p.2.position)),
          s1.peers.map (fun p => p.2.tx)) ∧
      s1.peers.map (fun p => p.2.tx) = [5, 7] ∧
      s1.peers.map Prod.fst = [0, 1] ∧
      lookupAssoc s1.peers 0 = some ⟨5, PeerState.playing, (0, 1)⟩ ∧
      (∀ a', a' ≠ 0 → lookupAssoc s1.peers a' =
        lookupAssoc [(0, ⟨5, PeerState.playing, (0, 0)⟩),
          (1, ⟨7, PeerState.playing, (3, 4)⟩)] a') ∧
      s1.peers.map (fun p => p.2.position) = [(0, 1), (3, 4)] := by
  obtain ⟨s1, h1, h2, h3, h4, h5, h6⟩ :=
    move_peer_broadcast
      (Shared.mk [(0, ⟨5, PeerState.playing, (0, 0)⟩), (1, ⟨7, PeerState.playing, (3, 4)⟩)])
      0 UserInput.moveDown ⟨5, PeerState.playing, (0, 0)⟩ (by decide) (by decide)
  exact ⟨s1, h1, h2.trans (by decide), h3.trans (by decide), h4.trans (by decide),
    h5, h6.trans (by decide)⟩

/-- C3: a registered peer at `(x, y)` moves to `(x, y - 1)` on MoveUp and
`(x - 1, y)` on MoveLeft under truncated (clamped-at-zero) subtraction, and
to `(x, y + 1)` on MoveDown and `(x + 1, y)` on MoveRight with no upper
clamp; in particular a peer at `(0, 0)` stays at `(0, 0)` after MoveUp then
MoveLeft, and reaches `(1, 1)` after MoveDown then MoveRight. -/
theorem move_peer_clamp :
    (∀ (s : Shared) (addr : Addr) (d : PeerData) (x y : Nat) (input : UserInput),
      lookupAssoc s.peers addr = some d → d.position = (x, y) →
      ∃ pr : Shared × RoomEvent × List Tx,
        s.move_peer addr input = some pr ∧
        lookupAssoc pr.1.peers addr = some
          { d with position :=
              match input with
              | UserInput.moveUp => (x, y - 1)
              | UserInput.moveDown => (x, y + 1)
              | UserInput.moveLeft => (x - 1, y)
              | UserInput.moveRight => (x + 1, y)
              | UserInput.quit => (x, y) } ) ∧
    applyInputs (Shared.new.add_peer 0 0) 0 [UserInput.moveUp, UserInput.moveLeft] =
      some ⟨[(0, ⟨0, PeerState.playing, (0, 0)⟩)]⟩ ∧
    applyInputs (Shared.new.add_peer 0 0) 0 [UserInput.moveDown, UserInput.moveRight] =
      some ⟨[(0, ⟨0, PeerState.playing, (1, 1)⟩)]⟩ := by
  refine ⟨?_, by decide, by decide⟩
  intro s addr d x y input hreg hpos
  refine ⟨(⟨updateAssoc (fun d0 => { d0 with position := movePos input d0.position })
      s.peers addr⟩,
    RoomEvent.peerMoved ((updateAssoc (fun d0 =>
      { d0 with position := movePos input d0.position }) s.peers addr).map
        (fun p => p.2.position)),
    (updateAssoc (fun d0 => { d0 with position := movePos input d0.position })
      s.peers addr).map (fun p => p.2.tx)), ?_, ?_⟩
  · simp [Shared.move_peer, hreg]
  · rw [lookupAssoc_updateAssoc_self _ s.peers addr d hreg]
    congr 1
    rw [hpos]
    cases input <;> simp [movePos] <;> omega

/-- Closed instance of `move_peer_clamp`: the general clause applied to a
single peer at `(0, 0)` receiving MoveUp. -/
theorem move_peer_clamp_witness :
    ∃ pr : Shared × RoomEvent × List Tx,
      (Shared.mk [(0, ⟨0, PeerState.playing, (0, 0)⟩)]).move_peer 0 UserInput.moveUp =
        some pr ∧
      lookupAssoc pr.1.peers 0 = some ⟨0, PeerState.playing, (0, 0 - 1)⟩ :=
  move_peer_clamp.1 (Shared.mk [(0, ⟨0, PeerState.playing, (0, 0)⟩)]) 0
    ⟨0, PeerState.playing, (0, 0)⟩ 0 0 UserInput.moveUp (by decide) (by decide)

/-- C10: `add_peer` is total (it has no failure path): it installs the fresh
entry with channel `tx`, stage Playing and position `(0, 0)` at the key,
silently replacing (and discarding the channel of) any existing entry for
the same identity, leaving every other peer and the key set otherwise
unchanged. -/
theorem add_peer_total_replace (s : Shared) (addr : Addr) (tx : Tx)
    (hnodup : (s.peers.map Prod.fst).Nodup) :
    lookupAssoc (s.add_peer addr tx).peers addr =
      some ⟨tx, PeerState.playing, (0, 0)⟩ ∧
    (∀ a', a' ≠ addr →
      lookupAssoc (s.add_peer addr tx).peers a' = lookupAssoc s.peers a') ∧
    ((s.add_peer addr tx).peers.map Prod.fst).Nodup ∧
    ((s.add_peer addr tx).peers.map Prod.fst =
      if addr ∈ s.peers.map Prod.fst then s.peers.map Prod.fst
      else s.peers.map Prod.fst ++ [addr]) :=
  ⟨lookupAssoc_insertAssoc_self s.peers addr _,
    fun a' ha' => lookupAssoc_insertAssoc_ne s.peers addr a' _ ha',
    nodup_keys_insertAssoc s.peers addr _ hnodup,
    keys_insertAssoc s.peers addr _⟩

/-- Closed instance of `add_peer_total_replace`: re-registering identity 0
(previously channel 5, position (2, 3)) with channel 9 resets it to stage
Playing at (0, 0) and discards channel 5. -/
theorem add_peer_total_replace_witness :
    lookupAssoc ((Shared.mk [(0, ⟨5, PeerState.playing, (2, 3)⟩)]).add_peer 0 9).peers 0 =
      some ⟨9, PeerState.playing, (0, 0)⟩ ∧
    ((Shared.mk [(0, ⟨5, PeerState.playing, (2, 3)⟩)]).add_peer 0 9).peers.map
      Prod.fst = [0] := by
  obtain ⟨h1, -, -, h4⟩ :=
    add_peer_total_replace (Shared.mk [(0, ⟨5, PeerState.playing, (2, 3)⟩)]) 0 9 (by decide)
  exact ⟨h1, h4.trans (by decide)⟩

end Mudv2
